import Mathlib

/-!
Verification of the query parser in `src/parser/parse_query.rs` of
tailhook/graphql.  The parser walks a pre-tokenised, bracket-nested token
stream and produces a `Query` AST.  Definitions below are shallow embeddings
of the Rust functions, keeping their names; the token slice cursor becomes
explicit list passing (each consuming function returns the remaining list).
-/

set_option maxHeartbeats 1000000

namespace GraphQL

/-- Bracket kinds, from `parser::token::Bracket`. -/
inductive Bracket where
  | Brace
  | Paren
  | Square
deriving DecidableEq

/-- Atomic tokens, from `parser::token::Atom`. -/
inductive Atom where
  | Name (s : String)
  | Number (n : Int)
  | String (s : String)
  | Colon
  | Comma
  | Bang
  | NewLine
deriving DecidableEq

/-- Tokens, from `parser::token::Token`: an atom or a bracket-matched tree. -/
inductive Token where
  | Atom (a : Atom)
  | Tree (b : Bracket) (toks : List Token)

/-- Identifier wrapper, from `types::Name`. -/
structure Name where
  str : String
deriving DecidableEq

/-- Values, from `query::Value`. -/
inductive Value where
  | Null
  | Name (n : Name)
  | String (s : String)
  | Array (vs : List Value)

/-- Fields, from `query::Field`. -/
inductive Field where
  | mk (name : Name) («alias» : Option Name) (args : List (Name × Value))
      (fields : List Field)

/-- Queries, from `query::Query`. -/
inductive Query where
  | Query (fields : List Field)
  | Mutation

/-- Size of a token, counting every node; used as the termination measure. -/
def tokSize : Token → Nat
  | .Atom _ => 1
  | .Tree _ toks => 1 + toksSize toks
where
  /-- Size of a token list. -/
  toksSize : List Token → Nat
  | [] => 0
  | t :: ts => tokSize t + toksSize ts

@[simp] theorem toksSize_nil : tokSize.toksSize [] = 0 := rfl

@[simp] theorem toksSize_cons (t : Token) (ts : List Token) :
    tokSize.toksSize (t :: ts) = tokSize t + tokSize.toksSize ts := rfl

@[simp] theorem tokSize_atom (a : Atom) : tokSize (Token.Atom a) = 1 := rfl

@[simp] theorem tokSize_tree (b : Bracket) (toks : List Token) :
    tokSize (Token.Tree b toks) = 1 + tokSize.toksSize toks := rfl

theorem tokSize_pos (t : Token) : 0 < tokSize t := by
  cases t <;> simp

/-- Abbreviation for the size of a remaining-token list. -/
def sz (ts : List Token) : Nat := tokSize.toksSize ts

@[simp] theorem sz_nil : sz [] = 0 := rfl

@[simp] theorem sz_cons (t : Token) (ts : List Token) :
    sz (t :: ts) = tokSize t + sz ts := rfl

/-- `Parser::next_tok`: pop the front token, or fail at end of stream. -/
def next_tok : List Token → Except String (Token × List Token)
  | [] => .error "Unexpected end of stream"
  | t :: ts => .ok (t, ts)

/-- `Parser::peek_tok`: the front token, if any, without consuming. -/
def peek_tok : List Token → Option Token
  | [] => none
  | t :: _ => some t

/-- `Parser::eat`: consume the next token, failing unless it is the expected
atom. -/
def eat (a : Atom) (ts : List Token) : Except String (List Token) :=
  match next_tok ts with
  | .error e => .error e
  | .ok (Token.Atom a2, rest) => if a2 = a then .ok rest else .error "Unexpected token"
  | .ok (_, _) => .error "Unexpected token"

/-- `Parser::maybe_eat`: consume the next token only if it equals the given
atom; otherwise a no-op, never failing. -/
def maybe_eat (a : Atom) (ts : List Token) : List Token :=
  match ts with
  | Token.Atom a2 :: rest => if a2 = a then rest else ts
  | _ => ts

/-- `Parser::ignore_newlines`: drop a maximal run of leading newline atoms. -/
def ignore_newlines : List Token → List Token
  | [] => []
  | Token.Atom Atom.NewLine :: ts => ignore_newlines ts
  | t :: ts => t :: ts

theorem sz_ignore_newlines_le (ts : List Token) : sz (ignore_newlines ts) ≤ sz ts := by
  induction ts with
  | nil => simp [ignore_newlines]
  | cons t ts ih =>
    match t with
    | Token.Atom Atom.NewLine =>
      have : ignore_newlines (Token.Atom Atom.NewLine :: ts) = ignore_newlines ts := rfl
      rw [this]
      simp only [sz_cons, tokSize_atom]
      omega
    | Token.Atom (Atom.Name s) => simp [ignore_newlines]
    | Token.Atom (Atom.Number n) => simp [ignore_newlines]
    | Token.Atom (Atom.String s) => simp [ignore_newlines]
    | Token.Atom Atom.Colon => simp [ignore_newlines]
    | Token.Atom Atom.Comma => simp [ignore_newlines]
    | Token.Atom Atom.Bang => simp [ignore_newlines]
    | Token.Tree b toks => simp [ignore_newlines]

theorem sz_maybe_eat_le (a : Atom) (ts : List Token) : sz (maybe_eat a ts) ≤ sz ts := by
  match ts with
  | [] => simp [maybe_eat]
  | Token.Atom a2 :: rest =>
    simp only [maybe_eat]
    split
    · simp only [sz_cons, tokSize_atom]
      omega
    · exact Nat.le_refl _
  | Token.Tree b toks :: rest => simp [maybe_eat]

/-- `Parser::parse_name`: consume one token, which must be an identifier. -/
def parse_name (ts : List Token) : Except String (Name × List Token) :=
  match next_tok ts with
  | .error e => .error e
  | .ok (Token.Atom (Atom.Name s), rest) => .ok (Name.mk s, rest)
  | .ok (_, _) => .error "Unexpected token, expected: name"

theorem parse_name_sz {ts : List Token} {n : Name} {r : List Token}
    (h : parse_name ts = .ok (n, r)) : sz r < sz ts := by
  match ts with
  | [] => simp [parse_name, next_tok] at h
  | t :: rest =>
    match t with
    | Token.Atom (Atom.Name s) =>
      simp [parse_name, next_tok] at h
      obtain ⟨h1, h2⟩ := h
      subst h2
      simp only [sz_cons, tokSize_atom]
      omega
    | Token.Atom (Atom.Number m) => simp [parse_name, next_tok] at h
    | Token.Atom (Atom.String s) => simp [parse_name, next_tok] at h
    | Token.Atom Atom.Colon => simp [parse_name, next_tok] at h
    | Token.Atom Atom.Comma => simp [parse_name, next_tok] at h
    | Token.Atom Atom.Bang => simp [parse_name, next_tok] at h
    | Token.Atom Atom.NewLine => simp [parse_name, next_tok] at h
    | Token.Tree b toks => simp [parse_name, next_tok] at h

theorem eat_sz {a : Atom} {ts r : List Token} (h : eat a ts = .ok r) : sz r < sz ts := by
  match ts with
  | [] => simp [eat, next_tok] at h
  | Token.Atom a2 :: rest =>
    simp only [eat, next_tok] at h
    split at h
    · simp at h
      subst h
      simp only [sz_cons, tokSize_atom]
      omega
    · simp at h
  | Token.Tree b toks :: rest => simp [eat, next_tok] at h

mutual

/-- `Parser::parse_value`: consume one token and dispatch: the identifier
`null` yields `Null`, any other identifier yields `Name`, a number yields
`Name` of its decimal text, a string yields `String`, a Square tree yields
`Array` of the value list parsed in that scope; anything else fails. -/
def parse_value : (ts : List Token) → Except String (Value × {r : List Token // sz r < sz ts})
  | [] => .error "Unexpected end of stream"
  | Token.Atom (Atom.Name "null") :: rest =>
    .ok (Value.Null, ⟨rest, by simp only [sz_cons, tokSize_atom]; omega⟩)
  | Token.Atom (Atom.Name s) :: rest =>
    .ok (Value.Name (Name.mk s), ⟨rest, by simp only [sz_cons, tokSize_atom]; omega⟩)
  | Token.Atom (Atom.Number n) :: rest =>
    .ok (Value.Name (Name.mk (toString n)), ⟨rest, by simp only [sz_cons, tokSize_atom]; omega⟩)
  | Token.Atom (Atom.String s) :: rest =>
    .ok (Value.String s, ⟨rest, by simp only [sz_cons, tokSize_atom]; omega⟩)
  | Token.Tree Bracket.Square toks :: rest =>
    match parse_value_list toks with
    | .error e => .error e
    | .ok vs =>
      .ok (Value.Array vs, ⟨rest, by simp only [sz_cons, tokSize_tree]; omega⟩)
  | _ :: _ => .error "Unexpected token, expected: value"
termination_by ts => 4 * sz ts
decreasing_by
  simp only [sz, sz_cons, tokSize_tree, toksSize_cons]
  omega

/-- `Parser::maybe_parse_value`: probe whether the lookahead can start a
value (identifier, string, or Square tree); `none` at end of scope; error on
any other lookahead. -/
def maybe_parse_value (ts : List Token) :
    Except String (Option (Value × {r : List Token // sz r < sz ts})) :=
  match peek_tok ts with
  | none => .ok none
  | some (Token.Atom (Atom.Name _)) | some (Token.Atom (Atom.String _))
  | some (Token.Tree Bracket.Square _) =>
    match parse_value ts with
    | .error e => .error e
    | .ok (v, r) => .ok (some (v, r))
  | some _ => .error "Unexpected token, expected: value"
termination_by 4 * sz ts + 1
decreasing_by
  all_goals omega

/-- The while-loop inside `Parser::parse_value_list`: probe for one value,
then optionally consume a comma and skip newlines, until the probe reports
the end of the scope. -/
def parse_value_list_loop (ts : List Token) : Except String (List Value) :=
  match maybe_parse_value ts with
  | .error e => .error e
  | .ok none => .ok []
  | .ok (some (v, r)) =>
    match parse_value_list_loop (ignore_newlines (maybe_eat Atom.Comma r.val)) with
    | .error e => .error e
    | .ok vs => .ok (v :: vs)
termination_by 4 * sz ts + 2
decreasing_by
  all_goals try omega
  all_goals
    have h1 := r.2
    have h2 := sz_ignore_newlines_le (maybe_eat Atom.Comma r.val)
    have h3 := sz_maybe_eat_le Atom.Comma r.val
    omega

/-- `Parser::parse_value_list`: skip leading newlines, then run the
value-list loop to the end of the scope. -/
def parse_value_list (ts : List Token) : Except String (List Value) :=
  parse_value_list_loop (ignore_newlines ts)
termination_by 4 * sz ts + 3
decreasing_by
  have h2 := sz_ignore_newlines_le ts
  omega

end

/-- `Parser::parse_arg`: `Name : Value`, failing if the colon is absent. -/
def parse_arg (ts : List Token) :
    Except String ((Name × Value) × {r : List Token // sz r < sz ts}) :=
  match h1 : parse_name ts with
  | .error e => .error e
  | .ok (n, r1) =>
    match h2 : eat Atom.Colon r1 with
    | .error e => .error e
    | .ok r2 =>
      match parse_value r2 with
      | .error e => .error e
      | .ok (v, r3) =>
        .ok ((n, v), ⟨r3.val, by
          have ha := parse_name_sz h1
          have hb := eat_sz h2
          have hc := r3.2
          omega⟩)

/-- `Parser::maybe_parse_arg`: probe whether the lookahead starts an
argument (an identifier); `none` at end of scope; error otherwise. -/
def maybe_parse_arg (ts : List Token) :
    Except String (Option ((Name × Value) × {r : List Token // sz r < sz ts})) :=
  match peek_tok ts with
  | none => .ok none
  | some (Token.Atom (Atom.Name _)) =>
    match parse_arg ts with
    | .error e => .error e
    | .ok (a, r) => .ok (some (a, r))
  | some _ => .error "Unexpected token, expected: name"

/-- The while-loop inside `Parser::parse_arg_list`: probe for one argument,
then optionally consume a comma and skip newlines, until the probe reports
the end of the scope. -/
def parse_arg_list_loop (ts : List Token) : Except String (List (Name × Value)) :=
  match maybe_parse_arg ts with
  | .error e => .error e
  | .ok none => .ok []
  | .ok (some (a, r)) =>
    match parse_arg_list_loop (ignore_newlines (maybe_eat Atom.Comma r.val)) with
    | .error e => .error e
    | .ok rest => .ok (a :: rest)
termination_by sz ts
decreasing_by
  all_goals
    have h1 := r.2
    have h2 := sz_ignore_newlines_le (maybe_eat Atom.Comma r.val)
    have h3 := sz_maybe_eat_le Atom.Comma r.val
    omega

/-- `Parser::parse_arg_list`: skip leading newlines, then run the
argument-list loop to the end of the scope. -/
def parse_arg_list (ts : List Token) : Except String (List (Name × Value)) :=
  parse_arg_list_loop (ignore_newlines ts)

/-- `Parser::maybe_parse_args`: if the lookahead is a Paren tree, consume it
and parse its contents as an argument list in a fresh scope; otherwise
return no arguments without consuming. -/
def maybe_parse_args (ts : List Token) :
    Except String (List (Name × Value) × {r : List Token // sz r ≤ sz ts}) :=
  match ts with
  | Token.Tree Bracket.Paren toks :: rest =>
    match parse_arg_list toks with
    | .error e => .error e
    | .ok args => .ok (args, ⟨rest, by simp only [sz_cons, tokSize_tree]; omega⟩)
  | other => .ok ([], ⟨other, Nat.le_refl _⟩)

mutual

/-- `Parser::parse_field`: `Name`, then an optional parenthesized argument
list, then an optional brace-delimited sub-field list; alias is never
populated. -/
def parse_field (ts : List Token) :
    Except String (Field × {r : List Token // sz r < sz ts}) :=
  match h1 : parse_name ts with
  | .error e => .error e
  | .ok (n, r1) =>
    match maybe_parse_args r1 with
    | .error e => .error e
    | .ok (args, r2) =>
      match maybe_parse_fields r2.val with
      | .error e => .error e
      | .ok (fs, r3) =>
        .ok (Field.mk n none args fs, ⟨r3.val, by
          have ha := parse_name_sz h1
          have hb := r2.2
          have hc := r3.2
          omega⟩)
termination_by 4 * sz ts
decreasing_by
  have ha := parse_name_sz h1
  have hb := r2.2
  omega

/-- `Parser::maybe_parse_field`: probe whether the lookahead starts a field
(an identifier); `none` at end of scope; error otherwise. -/
def maybe_parse_field (ts : List Token) :
    Except String (Option (Field × {r : List Token // sz r < sz ts})) :=
  match peek_tok ts with
  | none => .ok none
  | some (Token.Atom (Atom.Name _)) =>
    match parse_field ts with
    | .error e => .error e
    | .ok (f, r) => .ok (some (f, r))
  | some _ => .error "Unexpected token, expected: field"
termination_by 4 * sz ts + 1
decreasing_by
  omega

/-- The while-loop inside `Parser::parse_field_list`: probe for one field,
then optionally consume a comma and skip newlines, until the probe reports
the end of the scope. -/
def parse_field_list_loop (ts : List Token) : Except String (List Field) :=
  match maybe_parse_field ts with
  | .error e => .error e
  | .ok none => .ok []
  | .ok (some (f, r)) =>
    match parse_field_list_loop (ignore_newlines (maybe_eat Atom.Comma r.val)) with
    | .error e => .error e
    | .ok rest => .ok (f :: rest)
termination_by 4 * sz ts + 2
decreasing_by
  all_goals try omega
  all_goals
    have h1 := r.2
    have h2 := sz_ignore_newlines_le (maybe_eat Atom.Comma r.val)
    have h3 := sz_maybe_eat_le Atom.Comma r.val
    omega

/-- `Parser::parse_field_list`: skip leading newlines, then run the
field-list loop to the end of the scope. -/
def parse_field_list (ts : List Token) : Except String (List Field) :=
  parse_field_list_loop (ignore_newlines ts)
termination_by 4 * sz ts + 3
decreasing_by
  have h2 := sz_ignore_newlines_le ts
  omega

/-- `Parser::maybe_parse_fields`: if the lookahead is a Brace tree, consume
it and parse its contents as a field list in a fresh scope; otherwise return
no sub-fields without consuming. -/
def maybe_parse_fields (ts : List Token) :
    Except String (List Field × {r : List Token // sz r ≤ sz ts}) :=
  match ts with
  | Token.Tree Bracket.Brace toks :: rest =>
    match parse_field_list toks with
    | .error e => .error e
    | .ok fs => .ok (fs, ⟨rest, by simp only [sz_cons, tokSize_tree]; omega⟩)
  | other => .ok ([], ⟨other, Nat.le_refl _⟩)
termination_by 4 * sz ts + 2
decreasing_by
  simp only [sz, sz_cons, tokSize_tree, toksSize_cons]
  omega

end

/-- `Parser::parse_query`: root production.  `query` followed by a Brace
tree, a bare Brace tree (implicit query shorthand), or `mutation` (body
unparsed); trailing tokens are never checked. -/
def Parser.parse_query (ts : List Token) : Except String Query :=
  match next_tok ts with
  | .error e => .error e
  | .ok (Token.Atom (Atom.Name "query"), rest) =>
    match next_tok rest with
    | .error e => .error e
    | .ok (Token.Tree Bracket.Brace toks, _) =>
      match parse_field_list toks with
      | .error e => .error e
      | .ok body => .ok (Query.Query body)
    | .ok (_, _) => .error "Unexpected token, expected: `\x7b`"
  | .ok (Token.Atom (Atom.Name "mutation"), _) => .ok Query.Mutation
  | .ok (Token.Tree Bracket.Brace toks, _) =>
    match parse_field_list toks with
    | .error e => .error e
    | .ok body => .ok (Query.Query body)
  | .ok (_, _) => .error "Unexpected token, expected: identifier or `\x7b`"

/-- Whitespace characters removed by `str::trim` at the ends of the input
(ASCII model of the Rust behaviour). -/
def isTrimWS (c : Char) : Bool :=
  c == ' ' || c == '\t' || c == '\n' || c == '\r'

/-- Whitespace the lexer skips inside the input; newline is not skipped, it
becomes a `NewLine` atom. -/
def isSkipWS (c : Char) : Bool :=
  c == ' ' || c == '\t' || c == '\r'

/-- `str::trim` on the character list: strip leading and trailing
whitespace. -/
def trimChars (l : List Char) : List Char :=
  ((l.dropWhile (fun c => isTrimWS c)).reverse.dropWhile (fun c => isTrimWS c)).reverse

/-- `str::trim` lifted to strings. -/
def trimStr (s : String) : String := String.mk (trimChars s.data)

/-- Characters allowed after the first character of an identifier. -/
def isIdentChar (c : Char) : Bool := c.isAlphanum || c == '_'

/-- Decimal digits to an integer, most significant first. -/
def digitsToInt (l : List Char) : Int :=
  l.foldl (fun acc c => acc * 10 + ((c.toNat - 48 : Nat) : Int)) 0

/-- Flat lexer output before bracket matching: an atom, or an opening or
closing bracket. -/
inductive FlatTok where
  | FAtom (a : Atom)
  | FOpen (b : Bracket)
  | FClose (b : Bracket)

/-- Modelled from the spec: the tokenizer `parser::lexer::tokenise` is not
under `src/`; per the spec's tokenizer contract it emits atoms (identifier
text, numeric-literal text, string-literal text, `:`, `,`, `!`, newline) and
skips other whitespace.  This is the flat pass, fuelled by input length;
each step consumes at least one character, so fuel `length + 1` suffices. -/
def lexChars : Nat → List Char → Except String (List FlatTok)
  | 0, _ => .error "Lexer: out of fuel"
  | _, [] => .ok []
  | fuel + 1, c :: cs =>
    if c == '\n' then
      (lexChars fuel cs).map (fun ts => FlatTok.FAtom Atom.NewLine :: ts)
    else if isSkipWS c then
      lexChars fuel cs
    else if c == '\x7b' then
      (lexChars fuel cs).map (fun ts => FlatTok.FOpen Bracket.Brace :: ts)
    else if c == '\x7d' then
      (lexChars fuel cs).map (fun ts => FlatTok.FClose Bracket.Brace :: ts)
    else if c == '(' then
      (lexChars fuel cs).map (fun ts => FlatTok.FOpen Bracket.Paren :: ts)
    else if c == ')' then
      (lexChars fuel cs).map (fun ts => FlatTok.FClose Bracket.Paren :: ts)
    else if c == '[' then
      (lexChars fuel cs).map (fun ts => FlatTok.FOpen Bracket.Square :: ts)
    else if c == ']' then
      (lexChars fuel cs).map (fun ts => FlatTok.FClose Bracket.Square :: ts)
    else if c == ':' then
      (lexChars fuel cs).map (fun ts => FlatTok.FAtom Atom.Colon :: ts)
    else if c == ',' then
      (lexChars fuel cs).map (fun ts => FlatTok.FAtom Atom.Comma :: ts)
    else if c == '!' then
      (lexChars fuel cs).map (fun ts => FlatTok.FAtom Atom.Bang :: ts)
    else if c == '\"' then
      match cs.dropWhile (fun d => d != '\"') with
      | [] => .error "Lexer: unterminated string literal"
      | _ :: rest =>
        (lexChars fuel rest).map
          (fun ts =>
            FlatTok.FAtom (Atom.String (String.mk (cs.takeWhile (fun d => d != '\"')))) :: ts)
    else if c.isDigit then
      (lexChars fuel (cs.dropWhile Char.isDigit)).map
        (fun ts =>
          FlatTok.FAtom (Atom.Number (digitsToInt (c :: cs.takeWhile Char.isDigit))) :: ts)
    else if c.isAlpha || c == '_' then
      (lexChars fuel (cs.dropWhile (fun d => isIdentChar d))).map
        (fun ts =>
          FlatTok.FAtom (Atom.Name (String.mk (c :: cs.takeWhile (fun d => isIdentChar d)))) :: ts)
    else
      .error "Lexer: unexpected character"

/-- Modelled from the spec: bracket-matching pass of the tokenizer.  Builds
nested `Tree` tokens from the flat stream with an explicit stack of open
scopes; unbalanced or mismatched brackets are lexer errors, so the parser
receives only bracket-matched trees. -/
def buildTrees : List FlatTok → List (Bracket × List Token) → List Token →
    Except String (List Token)
  | [], [], acc => .ok acc.reverse
  | [], _ :: _, _ => .error "Lexer: unclosed bracket"
  | FlatTok.FAtom a :: rest, stack, acc => buildTrees rest stack (Token.Atom a :: acc)
  | FlatTok.FOpen b :: rest, stack, acc => buildTrees rest ((b, acc) :: stack) []
  | FlatTok.FClose b :: rest, stack, acc =>
    match stack with
    | [] => .error "Lexer: unmatched closing bracket"
    | (b2, outer) :: stack2 =>
      if b2 = b then buildTrees rest stack2 (Token.Tree b acc.reverse :: outer)
      else .error "Lexer: mismatched closing bracket"

/-- Modelled from the spec: `parser::lexer::tokenise`, the composition of
the flat lexer and the bracket-matching pass. -/
def tokenise (s : String) : Except String (List Token) :=
  match lexChars (s.data.length + 1) s.data with
  | .error e => .error e
  | .ok flat => buildTrees flat [] []

/-- The free function `parse_query` (the `parse` entry point): trim the
input, tokenise it, and run the root production. -/
def parse_query (input : String) : Except String Query :=
  match tokenise (trimStr input) with
  | .error e => .error e
  | .ok tokens => Parser.parse_query tokens

/-- The lookahead set of the value-list probe `maybe_parse_value`: an
identifier, a string, or a Square tree. -/
def value_start : Token → Bool
  | Token.Atom (Atom.Name _) => true
  | Token.Atom (Atom.String _) => true
  | Token.Tree Bracket.Square _ => true
  | _ => false

/-- The lookahead set of the field probe `maybe_parse_field`: an identifier. -/
def field_start : Token → Bool
  | Token.Atom (Atom.Name _) => true
  | _ => false

/-! ## General lemmas about the parser -/

theorem parse_field_list_cons_newline (ts : List Token) :
    parse_field_list (Token.Atom Atom.NewLine :: ts) = parse_field_list ts := by
  rw [parse_field_list.eq_def]
  rw [parse_field_list.eq_def]
  rfl

theorem parse_arg_list_cons_newline (ts : List Token) :
    parse_arg_list (Token.Atom Atom.NewLine :: ts) = parse_arg_list ts := by
  rw [parse_arg_list.eq_def]
  rw [parse_arg_list.eq_def]
  rfl

theorem parse_value_list_cons_newline (ts : List Token) :
    parse_value_list (Token.Atom Atom.NewLine :: ts) = parse_value_list ts := by
  rw [parse_value_list.eq_def]
  rw [parse_value_list.eq_def]
  rfl

theorem ignore_newlines_replicate (n : Nat) (ts : List Token) :
    ignore_newlines (List.replicate n (Token.Atom Atom.NewLine) ++ ts) = ignore_newlines ts := by
  induction n with
  | zero => simp
  | succ n ih =>
    rw [List.replicate_succ, List.cons_append]
    have : ignore_newlines
        (Token.Atom Atom.NewLine :: (List.replicate n (Token.Atom Atom.NewLine) ++ ts)) =
        ignore_newlines (List.replicate n (Token.Atom Atom.NewLine) ++ ts) := rfl
    rw [this, ih]

/-! ## The claims -/

/-- C1: parsing `{ human(id: 1002) { name, appearsIn, id } }` succeeds and
returns a `Query` with exactly one field named `human`, whose args are the
single pair `("id", Name "1002")`, whose alias is absent, and whose
sub-fields are, in order, `name`, `appearsIn`, `id`, each with no args and
no sub-fields. -/
theorem claim_c1 :
    parse_query "\x7b human(id: 1002) \x7b name, appearsIn, id \x7d \x7d" = .ok
      (Query.Query [Field.mk (Name.mk "human") none
        [(Name.mk "id", Value.Name (Name.mk "1002"))]
        [Field.mk (Name.mk "name") none [] [],
         Field.mk (Name.mk "appearsIn") none [] [],
         Field.mk (Name.mk "id") none [] []]]) := by
  have htok : tokenise (trimStr "\x7b human(id: 1002) \x7b name, appearsIn, id \x7d \x7d") = .ok
    [Token.Tree Bracket.Brace
      [Token.Atom (Atom.Name "human"),
       Token.Tree Bracket.Paren
         [Token.Atom (Atom.Name "id"), Token.Atom Atom.Colon, Token.Atom (Atom.Number 1002)],
       Token.Tree Bracket.Brace
         [Token.Atom (Atom.Name "name"), Token.Atom Atom.Comma,
          Token.Atom (Atom.Name "appearsIn"), Token.Atom Atom.Comma,
          Token.Atom (Atom.Name "id")]]] := rfl
  have hnum : toString (1002 : Int) = "1002" := rfl
  simp [parse_query, htok, Parser.parse_query, next_tok, parse_field_list, parse_field_list_loop,
    maybe_parse_field, parse_field, parse_name, peek_tok, maybe_parse_args, maybe_parse_fields,
    ignore_newlines, maybe_eat, parse_arg_list, parse_arg_list_loop, maybe_parse_arg, parse_arg,
    eat, parse_value, hnum]

/-- C2: value parsing dispatches on the next token: the identifier `null`
yields `Null`; the numeric literal `42` yields `Name "42"`; the string
literal `"foo"` yields `String "foo"`; the array literal
`[null, null, foo, "bar"]` yields the corresponding `Array` in source
order; and any token that is not an identifier, a numeric literal, a
string, or a Square tree makes `parse_value` fail with a parse error. -/
theorem claim_c2 :
    (∀ ts : List Token,
      (parse_value (Token.Atom (Atom.Name "null") :: ts)).toOption.map Prod.fst =
        some Value.Null) ∧
    (∀ ts : List Token,
      (parse_value (Token.Atom (Atom.Number 42) :: ts)).toOption.map Prod.fst =
        some (Value.Name (Name.mk "42"))) ∧
    (∀ ts : List Token,
      (parse_value (Token.Atom (Atom.String "foo") :: ts)).toOption.map Prod.fst =
        some (Value.String "foo")) ∧
    (∀ ts : List Token,
      (parse_value (Token.Tree Bracket.Square
          [Token.Atom (Atom.Name "null"), Token.Atom Atom.Comma,
           Token.Atom (Atom.Name "null"), Token.Atom Atom.Comma,
           Token.Atom (Atom.Name "foo"), Token.Atom Atom.Comma,
           Token.Atom (Atom.String "bar")] :: ts)).toOption.map Prod.fst =
        some (Value.Array
          [Value.Null, Value.Null, Value.Name (Name.mk "foo"), Value.String "bar"])) ∧
    (∀ ts : List Token,
      parse_value (Token.Atom Atom.Colon :: ts) = .error "Unexpected token, expected: value" ∧
      parse_value (Token.Atom Atom.Comma :: ts) = .error "Unexpected token, expected: value" ∧
      parse_value (Token.Atom Atom.Bang :: ts) = .error "Unexpected token, expected: value" ∧
      parse_value (Token.Atom Atom.NewLine :: ts) = .error "Unexpected token, expected: value" ∧
      (∀ toks : List Token,
        parse_value (Token.Tree Bracket.Brace toks :: ts) =
          .error "Unexpected token, expected: value" ∧
        parse_value (Token.Tree Bracket.Paren toks :: ts) =
          .error "Unexpected token, expected: value")) := by
  have h42 : toString (42 : Int) = "42" := rfl
  refine ⟨fun ts => ?_, fun ts => ?_, fun ts => ?_, fun ts => ?_, fun ts => ?_⟩
  · simp [parse_value, Except.toOption]
  · simp [parse_value, Except.toOption, h42]
  · simp [parse_value, Except.toOption]
  · simp [parse_value, parse_value_list, parse_value_list_loop, maybe_parse_value,
      ignore_newlines, maybe_eat, peek_tok, Except.toOption]
  · refine ⟨?_, ?_, ?_, ?_, fun toks => ⟨?_, ?_⟩⟩ <;> simp [parse_value]

/-- C3, counterexample: a numeric literal can be parsed by the value
dispatch (`parse_value` maps it to `Name "42"`), yet the value-list probe
rejects it with a parse error, so the probe's lookahead set is not in sync
with the dispatch. -/
theorem claim_c3_counterexample :
    maybe_parse_value [Token.Atom (Atom.Number 42)] =
      .error "Unexpected token, expected: value" ∧
    (parse_value [Token.Atom (Atom.Number 42)]).toOption.map Prod.fst =
      some (Value.Name (Name.mk "42")) := by
  have h42 : toString (42 : Int) = "42" := rfl
  constructor
  · simp [maybe_parse_value, peek_tok]
  · simp [parse_value, Except.toOption, h42]

/-- C3, amended: the value-list probe accepts exactly the lookahead set
{identifier, string, Square tree}; on those tokens it returns precisely the
dispatch's result, at end of scope it reports end-of-list, and on any other
lookahead token — including numeric literals, which the dispatch itself
would happily parse — it fails with a parse error.  The probe's set is thus
a strict subset of what the dispatch accepts. -/
theorem claim_c3 :
    (∀ (t : Token) (ts : List Token), value_start t = true →
      maybe_parse_value (t :: ts) = (parse_value (t :: ts)).map some) ∧
    (∀ (t : Token) (ts : List Token), value_start t = false →
      maybe_parse_value (t :: ts) = .error "Unexpected token, expected: value") ∧
    maybe_parse_value ([] : List Token) = .ok none := by
  refine ⟨fun t ts h => ?_, fun t ts h => ?_, by simp [maybe_parse_value, peek_tok]⟩
  · match t with
    | Token.Atom (Atom.Name s) =>
      cases hv : parse_value (Token.Atom (Atom.Name s) :: ts) <;>
        simp [maybe_parse_value, peek_tok, hv, Except.map]
    | Token.Atom (Atom.String s) =>
      cases hv : parse_value (Token.Atom (Atom.String s) :: ts) <;>
        simp [maybe_parse_value, peek_tok, hv, Except.map]
    | Token.Tree Bracket.Square toks =>
      cases hv : parse_value (Token.Tree Bracket.Square toks :: ts) <;>
        simp [maybe_parse_value, peek_tok, hv, Except.map]
    | Token.Atom (Atom.Number n) => simp [value_start] at h
    | Token.Atom Atom.Colon => simp [value_start] at h
    | Token.Atom Atom.Comma => simp [value_start] at h
    | Token.Atom Atom.Bang => simp [value_start] at h
    | Token.Atom Atom.NewLine => simp [value_start] at h
    | Token.Tree Bracket.Brace toks => simp [value_start] at h
    | Token.Tree Bracket.Paren toks => simp [value_start] at h
  · match t with
    | Token.Atom (Atom.Name s) => simp [value_start] at h
    | Token.Atom (Atom.String s) => simp [value_start] at h
    | Token.Tree Bracket.Square toks => simp [value_start] at h
    | Token.Atom (Atom.Number n) => simp [maybe_parse_value, peek_tok]
    | Token.Atom Atom.Colon => simp [maybe_parse_value, peek_tok]
    | Token.Atom Atom.Comma => simp [maybe_parse_value, peek_tok]
    | Token.Atom Atom.Bang => simp [maybe_parse_value, peek_tok]
    | Token.Atom Atom.NewLine => simp [maybe_parse_value, peek_tok]
    | Token.Tree Bracket.Brace toks => simp [maybe_parse_value, peek_tok]
    | Token.Tree Bracket.Paren toks => simp [maybe_parse_value, peek_tok]

/-- C3, witness: the amended theorem applied at a concrete input. -/
theorem claim_c3_witness :
    maybe_parse_value [Token.Atom Atom.Bang] = .error "Unexpected token, expected: value" :=
  claim_c3.2.1 (Token.Atom Atom.Bang) [] rfl

/-- C4, counterexample: separators are not arbitrarily repeatable — a run of
two commas between two items is rejected, so `{a,,b}` is a parse error
rather than the two-element list. -/
theorem claim_c4_counterexample :
    parse_query "\x7ba,,b\x7d" = .error "Unexpected token, expected: field" := by
  have htok : tokenise (trimStr "\x7ba,,b\x7d") = .ok
      [Token.Tree Bracket.Brace
        [Token.Atom (Atom.Name "a"), Token.Atom Atom.Comma, Token.Atom Atom.Comma,
         Token.Atom (Atom.Name "b")]] := rfl
  simp [parse_query, htok, Parser.parse_query, next_tok, parse_field_list,
    parse_field_list_loop, maybe_parse_field, parse_field, parse_name, peek_tok,
    maybe_parse_args, maybe_parse_fields, ignore_newlines, maybe_eat]

/-- C4, amended: comma, newline, and nothing each work as a single item
separator — `"a,b"`, `"a\nb"` and `"a, b\n"` all parse to the same
two-element field list — and in general the accepted separator between two
items is at most one comma followed by any number of newlines (in either
order of presence); but separators are not freely repeatable: a second
comma in the run is rejected (see the counterexample). -/
theorem claim_c4 :
    ((tokenise "a,b").bind parse_field_list = .ok
      [Field.mk (Name.mk "a") none [] [], Field.mk (Name.mk "b") none [] []]) ∧
    ((tokenise "a\nb").bind parse_field_list = .ok
      [Field.mk (Name.mk "a") none [] [], Field.mk (Name.mk "b") none [] []]) ∧
    ((tokenise "a, b\n").bind parse_field_list = .ok
      [Field.mk (Name.mk "a") none [] [], Field.mk (Name.mk "b") none [] []]) ∧
    (∀ (c : Bool) (n : Nat),
      parse_field_list (Token.Atom (Atom.Name "a") ::
        ((if c then [Token.Atom Atom.Comma] else []) ++
          (List.replicate n (Token.Atom Atom.NewLine) ++ [Token.Atom (Atom.Name "b")]))) =
      .ok [Field.mk (Name.mk "a") none [] [], Field.mk (Name.mk "b") none [] []]) := by
  have hb : ∀ k : Nat, parse_field_list_loop (ignore_newlines
      (List.replicate k (Token.Atom Atom.NewLine) ++ [Token.Atom (Atom.Name "b")])) =
      .ok [Field.mk (Name.mk "b") none [] []] := by
    intro k
    rw [ignore_newlines_replicate]
    simp [parse_field_list_loop, maybe_parse_field, parse_field, parse_name, next_tok,
      peek_tok, maybe_parse_args, maybe_parse_fields, maybe_eat, ignore_newlines]
  refine ⟨?_, ?_, ?_, fun c n => ?_⟩
  · have htok : tokenise "a,b" = .ok
        [Token.Atom (Atom.Name "a"), Token.Atom Atom.Comma, Token.Atom (Atom.Name "b")] := rfl
    simp [htok, Except.bind, parse_field_list, parse_field_list_loop, maybe_parse_field,
      parse_field, parse_name, next_tok, peek_tok, maybe_parse_args, maybe_parse_fields,
      ignore_newlines, maybe_eat]
  · have htok : tokenise "a\nb" = .ok
        [Token.Atom (Atom.Name "a"), Token.Atom Atom.NewLine, Token.Atom (Atom.Name "b")] := rfl
    simp [htok, Except.bind, parse_field_list, parse_field_list_loop, maybe_parse_field,
      parse_field, parse_name, next_tok, peek_tok, maybe_parse_args, maybe_parse_fields,
      ignore_newlines, maybe_eat]
  · have htok : tokenise "a, b\n" = .ok
        [Token.Atom (Atom.Name "a"), Token.Atom Atom.Comma, Token.Atom (Atom.Name "b"),
         Token.Atom Atom.NewLine] := rfl
    simp [htok, Except.bind, parse_field_list, parse_field_list_loop, maybe_parse_field,
      parse_field, parse_name, next_tok, peek_tok, maybe_parse_args, maybe_parse_fields,
      ignore_newlines, maybe_eat]
  · cases c with
    | true =>
      simp only [if_pos, List.cons_append, List.nil_append]
      simp [parse_field_list, parse_field_list_loop, maybe_parse_field, parse_field,
        parse_name, next_tok, peek_tok, maybe_parse_args, maybe_parse_fields,
        ignore_newlines, maybe_eat, hb]
    | false =>
      cases n with
      | zero =>
        simp [parse_field_list, parse_field_list_loop, maybe_parse_field, parse_field,
          parse_name, next_tok, peek_tok, maybe_parse_args, maybe_parse_fields,
          ignore_newlines, maybe_eat]
      | succ m =>
        simp only [if_neg, List.nil_append, List.replicate_succ, List.cons_append]
        simp [parse_field_list, parse_field_list_loop, maybe_parse_field, parse_field,
          parse_name, next_tok, peek_tok, maybe_parse_args, maybe_parse_fields,
          ignore_newlines, maybe_eat, hb]

/-- C5: `parse("mutation")` yields `Mutation` with no error; the root
production returns `Mutation` immediately without consuming or validating
any following tokens; and after any complete root production the remaining
tokens are never inspected, so for example `"{} garbage"` parses without
error and the result of a brace-rooted parse is independent of what follows
the brace tree. -/
theorem claim_c5 :
    parse_query "mutation" = .ok Query.Mutation ∧
    (∀ rest : List Token,
      Parser.parse_query (Token.Atom (Atom.Name "mutation") :: rest) = .ok Query.Mutation) ∧
    parse_query "\x7b\x7d garbage" = .ok (Query.Query []) ∧
    (∀ (B r1 r2 : List Token),
      Parser.parse_query (Token.Tree Bracket.Brace B :: r1) =
        Parser.parse_query (Token.Tree Bracket.Brace B :: r2)) := by
  refine ⟨?_, fun rest => rfl, ?_, fun B r1 r2 => rfl⟩
  · have htok : tokenise (trimStr "mutation") = .ok [Token.Atom (Atom.Name "mutation")] := rfl
    simp [parse_query, htok, Parser.parse_query, next_tok]
  · have htok : tokenise (trimStr "\x7b\x7d garbage") = .ok
        [Token.Tree Bracket.Brace [], Token.Atom (Atom.Name "garbage")] := rfl
    simp [parse_query, htok, Parser.parse_query, next_tok, parse_field_list,
      parse_field_list_loop, maybe_parse_field, ignore_newlines, peek_tok]

/-- C6: a bare Brace tree at the root parses exactly like the identifier
`query` followed by the same Brace tree — the same `Query` on success and
the same error on failure, whatever the body `B` and the trailing tokens. -/
theorem claim_c6 (B r1 r2 : List Token) :
    Parser.parse_query (Token.Tree Bracket.Brace B :: r1) =
      Parser.parse_query
        (Token.Atom (Atom.Name "query") :: Token.Tree Bracket.Brace B :: r2) := rfl

/-- C7: a scope that is empty or holds only newline atoms makes each of the
three list productions succeed with the empty list. -/
theorem claim_c7 (n : Nat) :
    parse_field_list (List.replicate n (Token.Atom Atom.NewLine)) = .ok [] ∧
    parse_arg_list (List.replicate n (Token.Atom Atom.NewLine)) = .ok [] ∧
    parse_value_list (List.replicate n (Token.Atom Atom.NewLine)) = .ok [] := by
  induction n with
  | zero =>
    refine ⟨?_, ?_, ?_⟩
    · simp [parse_field_list, parse_field_list_loop, maybe_parse_field, ignore_newlines,
        peek_tok]
    · simp [parse_arg_list, parse_arg_list_loop, maybe_parse_arg, ignore_newlines, peek_tok]
    · simp [parse_value_list, parse_value_list_loop, maybe_parse_value, ignore_newlines,
        peek_tok]
  | succ n ih =>
    rw [List.replicate_succ]
    exact ⟨by rw [parse_field_list_cons_newline]; exact ih.1,
      by rw [parse_arg_list_cons_newline]; exact ih.2.1,
      by rw [parse_value_list_cons_newline]; exact ih.2.2⟩

/-- C8: when the lookahead at a field-list position is present but not an
identifier atom, the field probe fails with a parse error; in particular
both `parse("{1}")` and `parse("{,}")` are parse errors. -/
theorem claim_c8 :
    parse_query "\x7b1\x7d" = .error "Unexpected token, expected: field" ∧
    parse_query "\x7b,\x7d" = .error "Unexpected token, expected: field" ∧
    (∀ (t : Token) (ts : List Token), field_start t = false →
      maybe_parse_field (t :: ts) = .error "Unexpected token, expected: field") := by
  refine ⟨?_, ?_, fun t ts h => ?_⟩
  · have htok : tokenise (trimStr "\x7b1\x7d") = .ok
        [Token.Tree Bracket.Brace [Token.Atom (Atom.Number 1)]] := rfl
    simp [parse_query, htok, Parser.parse_query, next_tok, parse_field_list,
      parse_field_list_loop, maybe_parse_field, ignore_newlines, peek_tok]
  · have htok : tokenise (trimStr "\x7b,\x7d") = .ok
        [Token.Tree Bracket.Brace [Token.Atom Atom.Comma]] := rfl
    simp [parse_query, htok, Parser.parse_query, next_tok, parse_field_list,
      parse_field_list_loop, maybe_parse_field, ignore_newlines, peek_tok]
  · match t with
    | Token.Atom (Atom.Name s) => simp [field_start] at h
    | Token.Atom (Atom.Number n) => simp [maybe_parse_field, peek_tok]
    | Token.Atom (Atom.String s) => simp [maybe_parse_field, peek_tok]
    | Token.Atom Atom.Colon => simp [maybe_parse_field, peek_tok]
    | Token.Atom Atom.Comma => simp [maybe_parse_field, peek_tok]
    | Token.Atom Atom.Bang => simp [maybe_parse_field, peek_tok]
    | Token.Atom Atom.NewLine => simp [maybe_parse_field, peek_tok]
    | Token.Tree b toks => simp [maybe_parse_field, peek_tok]

/-- C8, witness: the general part of the theorem applied at a concrete
non-identifier lookahead. -/
theorem claim_c8_witness :
    maybe_parse_field [Token.Atom Atom.Comma] = .error "Unexpected token, expected: field" :=
  claim_c8.2.2 (Token.Atom Atom.Comma) [] rfl

/-- C9: the root production is a total function into the result type — for
every token list it returns either a `Query` or a parse error — and the
cursor primitive `next_tok` is guarded: on an empty slice it returns a
parse error instead of indexing out of bounds. -/
theorem claim_c9 :
    (∀ ts : List Token,
      (∃ q, Parser.parse_query ts = .ok q) ∨ (∃ e, Parser.parse_query ts = .error e)) ∧
    next_tok ([] : List Token) = .error "Unexpected end of stream" := by
  refine ⟨fun ts => ?_, rfl⟩
  cases h : Parser.parse_query ts with
  | ok q => exact Or.inl ⟨q, rfl⟩
  | error e => exact Or.inr ⟨e, rfl⟩

theorem dropWhile_self_dropWhile (p : Char → Bool) (l : List Char) :
    (l.dropWhile p).dropWhile p = l.dropWhile p := by
  induction l with
  | nil => simp
  | cons a l ih =>
    by_cases h : p a
    · simp only [List.dropWhile_cons, h, if_true]
      exact ih
    · simp only [List.dropWhile_cons, h, if_false]
      simp [List.dropWhile_cons, h]

theorem dropWhile_head_false (p : Char → Bool) (l : List Char) (a : Char) (w : List Char)
    (h : l.dropWhile p = a :: w) : p a = false := by
  induction l with
  | nil => simp at h
  | cons b l ih =>
    rw [List.dropWhile_cons] at h
    by_cases hb : p b
    · rw [if_pos hb] at h
      exact ih h
    · rw [if_neg hb] at h
      injection h with h1 h2
      subst h1
      simpa using hb

theorem trimChars_idem (l : List Char) : trimChars (trimChars l) = trimChars l := by
  have key : ((l.dropWhile isTrimWS).reverse.dropWhile isTrimWS).reverse.dropWhile isTrimWS =
      ((l.dropWhile isTrimWS).reverse.dropWhile isTrimWS).reverse := by
    match hT : ((l.dropWhile isTrimWS).reverse.dropWhile isTrimWS).reverse with
    | [] => simp
    | a :: w =>
      have hsplit : (l.dropWhile isTrimWS).reverse.takeWhile isTrimWS ++
          (l.dropWhile isTrimWS).reverse.dropWhile isTrimWS =
          (l.dropWhile isTrimWS).reverse := List.takeWhile_append_dropWhile _ _
      have hu : l.dropWhile isTrimWS =
          ((l.dropWhile isTrimWS).reverse.dropWhile isTrimWS).reverse ++
            ((l.dropWhile isTrimWS).reverse.takeWhile isTrimWS).reverse := by
        conv_lhs => rw [← List.reverse_reverse (l.dropWhile isTrimWS), ← hsplit]
        rw [List.reverse_append]
      rw [hT] at hu
      have hpa : isTrimWS a = false := by
        refine dropWhile_head_false isTrimWS l a
          (w ++ ((l.dropWhile isTrimWS).reverse.takeWhile isTrimWS).reverse) ?_
        simpa using hu
      rw [List.dropWhile_cons, hpa]
      simp
  unfold trimChars
  rw [key, List.reverse_reverse, dropWhile_self_dropWhile]

/-- C10: the entry point trims its input before tokenising, so parsing any
string gives exactly the same result as parsing the string with leading and
trailing whitespace removed. -/
theorem claim_c10 (s : String) : parse_query s = parse_query (trimStr s) := by
  have hidem : trimStr (trimStr s) = trimStr s := by
    unfold trimStr
    have hdata : (String.mk (trimChars s.data)).data = trimChars s.data := rfl
    rw [hdata, trimChars_idem]
  unfold parse_query
  rw [hidem]

end GraphQL
